import Mathlib

/-!
Verification of the ProcessPotentialTracker repository: a shallow embedding of
its matching engine (`matching_engine.py`), its catalog validators
(`data_handler.py`, in the two copies the repository ships), its SQLite-backed
store operations (`database.py`) and the Streamlit employee-form allocation and
upload flows (`app.py`), together with theorems settling the frozen claims
about vacancy bookkeeping, matching, validation and error handling.

Modelling conventions:
  * A pandas `DataFrame` of processes is a list of labelled rows (`SRow`),
    the label playing the role of the pandas index.
  * The SQLite store is `DB`: a list of process rows and employee rows plus
    the `AUTOINCREMENT` counters.  An SQL `UPDATE` maps over every row
    matching its `WHERE` clause; `rowcount` is the number of matched rows;
    `fetchone` of a `SELECT` without `ORDER BY` returns the first matching
    row in insertion order; a `ROLLBACK` restores the database passed in.
  * Machine text is `String`; Python's `str.strip()`, `str.lower()` and
    string comparison are modelled by executable functions over the
    character list (`pyStrip`, `pyLower`, `nameLe`), covering the ASCII
    range the repository's data uses.
  * A raw uploaded cell of the `Vacancy` column is `Option Int`: `some n`
    for a value `pd.to_numeric` can coerce, `none` for one it cannot.
-/

/-- Python whitespace for `str.strip()`, restricted to the ASCII range:
space, tab, newline, carriage return, vertical tab, form feed. -/
def isSpaceChar (c : Char) : Bool :=
  c.toNat = 32 ∨ c.toNat = 9 ∨ c.toNat = 10 ∨ c.toNat = 13 ∨ c.toNat = 11 ∨ c.toNat = 12

/-- Python `str.strip()` / pandas `.str.strip()`: drop whitespace from both ends. -/
def pyStrip (s : String) : String :=
  String.mk ((((s.data.dropWhile isSpaceChar).reverse).dropWhile isSpaceChar).reverse)

/-- Lower-case one character (ASCII range), as SQL `LOWER` and `str.lower()` do. -/
def lowerChar (c : Char) : Char :=
  if h : 65 ≤ c.toNat ∧ c.toNat ≤ 90 then
    Char.ofNatAux (c.toNat + 32) (Or.inl (by omega))
  else c

/-- Python `str.lower()` / SQL `LOWER`, on the ASCII range. -/
def pyLower (s : String) : String :=
  String.mk (s.data.map lowerChar)

/-- Code-point lexicographic `≤` on character lists, Python's string ordering. -/
def lexLeCh : List Char → List Char → Bool
  | [], _ => true
  | _ :: _, [] => false
  | a :: as, b :: bs =>
    if a.toNat < b.toNat then true
    else if b.toNat < a.toNat then false
    else lexLeCh as bs

/-- Python string `≤`, used by the pandas ascending sort on `Process_Name`. -/
def nameLe (a b : String) : Bool := lexLeCh a.data b.data

/-- One labelled row of a pandas process `DataFrame`: the catalog columns
`Process_Name`, `Potential`, `Communication`, `Vacancy` plus the index label. -/
structure SRow where
  label : Nat
  Process_Name : String
  Potential : String
  Communication : String
  Vacancy : Int
deriving Repr, DecidableEq

/-- The key order of `sort_values(['Vacancy', 'Process_Name'],
ascending=[False, True])`: vacancy descending, then process name ascending. -/
def procOrd (a b : SRow) : Prop :=
  b.Vacancy < a.Vacancy ∨ (a.Vacancy = b.Vacancy ∧ nameLe a.Process_Name b.Process_Name = true)

instance : DecidableRel procOrd := fun a b => by
  unfold procOrd
  infer_instance

/-- `matching_engine.find_matching_process`: strip the inputs, strip the
`Potential`/`Communication` columns of a working copy, filter on exact
potential+communication+vacancy, fall back to potential+vacancy when that is
empty, and sort by vacancy descending then name ascending.  Returns `none`
for an empty/absent catalog or when no tier matches. -/
def find_matching_process (process_data : List SRow) (potential communication : String) :
    Option (List SRow) :=
  if process_data.isEmpty then none
  else
    let potential := pyStrip potential
    let communication := pyStrip communication
    let clean_data := process_data.map fun r =>
      { r with Potential := pyStrip r.Potential, Communication := pyStrip r.Communication }
    let matching₀ := clean_data.filter fun r =>
      r.Potential == potential && r.Communication == communication && decide (0 < r.Vacancy)
    let matching :=
      if matching₀.isEmpty then
        clean_data.filter fun r => r.Potential == potential && decide (0 < r.Vacancy)
      else matching₀
    if matching.isEmpty then none
    else some (List.insertionSort procOrd matching)

/-- Spec-side: the catalog with `Potential`/`Communication` normalised
(step 1 of the spec's matcher algorithm). -/
def specClean (data : List SRow) : List SRow :=
  data.map fun r =>
    { r with Potential := pyStrip r.Potential, Communication := pyStrip r.Communication }

/-- Spec-side pass 1: processes with equal potential, equal communication and
vacancy > 0 (written from the claim, to compare with the source function). -/
def specPass1 (data : List SRow) (potential communication : String) : List SRow :=
  (specClean data).filter fun r =>
    r.Potential == pyStrip potential && r.Communication == pyStrip communication &&
      decide (0 < r.Vacancy)

/-- Spec-side pass 2: processes with equal potential and vacancy > 0,
communication ignored (written from the claim). -/
def specPass2 (data : List SRow) (potential : String) : List SRow :=
  (specClean data).filter fun r => r.Potential == pyStrip potential && decide (0 < r.Vacancy)

/-- One row of the SQLite `processes` table (`database.py`, `init_schema`). -/
structure PRow where
  id : Nat
  process_name : String
  potential : String
  communication : String
  vacancy : Int
deriving Repr, DecidableEq

/-- One row of the SQLite `employees` table (`database.py`, `init_schema`). -/
structure EmployeeRow where
  id : Nat
  name : String
  email : String
  potential : String
  communication : String
  process_id : Option Nat
  process_name : Option String
deriving Repr, DecidableEq

/-- The SQLite store: both tables plus the `AUTOINCREMENT` id counters. -/
structure DB where
  processes : List PRow
  employees : List EmployeeRow
  next_pid : Nat
  next_eid : Nat
deriving Repr, DecidableEq

/-- The vacancy of the process named `n`, read as `database.py` does with
`SELECT vacancy FROM processes WHERE process_name = ?` and `fetchone`:
the first row with that name, `none` when the process is absent. -/
def vacancyOf (ps : List PRow) (n : String) : Option Int :=
  (ps.find? fun p => p.process_name == n).map (·.vacancy)

/-- `database.update_process_vacancy`: for a negative `change` run the single
clamped update `SET vacancy = CASE WHEN vacancy + ? < 0 THEN 0 ELSE
vacancy + ? END WHERE process_name = ?`; for a non-negative one add it
unconditionally.  When no row matched (`rowcount == 0`) the connection is
closed without commit and the call reports failure; otherwise it commits and
re-reads the row, reporting success exactly when the process exists. -/
def update_process_vacancy (db : DB) (process_name : String) (change : Int) : DB × Bool :=
  let rowcount := (db.processes.filter fun p => p.process_name == process_name).length
  let ps :=
    if change < 0 then
      db.processes.map fun p =>
        if p.process_name == process_name then
          { p with vacancy := if p.vacancy + change < 0 then 0 else p.vacancy + change }
        else p
    else
      db.processes.map fun p =>
        if p.process_name == process_name then { p with vacancy := p.vacancy + change } else p
  if rowcount = 0 then (db, false)
  else
    let db' := { db with processes := ps }
    (db', (db'.processes.find? fun p => p.process_name == process_name).isSome)

/-- `database.add_employee`: normalise the email, reject a duplicate email,
and when a process is requested check it exists and has vacancy, decrement
its vacancy with the conditional `UPDATE ... WHERE process_name = ? AND
vacancy > 0`, then insert the employee row; every failure rolls the
transaction back.  (`purge_deleted_emails` only runs SQL `VACUUM`, which has
no logical effect and is not modelled.)  Returns the database, the success
flag and the message. -/
def add_employee (db : DB) (name email potential communication : String)
    (process_name : Option String) : DB × Bool × String :=
  let email := pyLower (pyStrip email)
  if 0 < (db.employees.filter fun e => pyLower e.email == email).length then
    (db, false, "Email already exists in the database")
  else
    match process_name with
    | some pn =>
      match db.processes.find? (fun p => p.process_name == pn) with
      | none => (db, false, "Process " ++ pn ++ " not found")
      | some prow =>
        if prow.vacancy ≤ 0 then (db, false, "No vacancy available in " ++ pn)
        else
          let rowcount :=
            (db.processes.filter fun p => p.process_name == pn && decide (0 < p.vacancy)).length
          if rowcount = 0 then (db, false, "Failed to update vacancy for " ++ pn)
          else
            let ps := db.processes.map fun p =>
              if p.process_name == pn && decide (0 < p.vacancy) then
                { p with vacancy := p.vacancy - 1 }
              else p
            let emp : EmployeeRow :=
              ⟨db.next_eid, name, email, potential, communication, some prow.id, some pn⟩
            ({ db with
                processes := ps
                employees := db.employees ++ [emp]
                next_eid := db.next_eid + 1 }, true, "Employee added successfully")
    | none =>
      let emp : EmployeeRow :=
        ⟨db.next_eid, name, email, potential, communication, none, none⟩
      ({ db with employees := db.employees ++ [emp], next_eid := db.next_eid + 1 },
        true, "Employee added successfully")

/-- `database.update_employee`: inside one transaction, reject a duplicate
email, look the employee up, and when the assigned process changes give the
old process its slot back (`vacancy + 1`, unconditional), check the new
process exists with vacancy > 0, take its slot with the conditional
decrement, and rewrite the employee row; any failure rolls everything back. -/
def update_employee (db : DB) (employee_id : Nat) (name email potential communication : String)
    (process_name : Option String) : DB × Bool × String :=
  let email := pyLower (pyStrip email)
  if db.employees.any (fun e => pyLower e.email == email && e.id != employee_id) then
    (db, false, "Email already exists for another employee")
  else
    match db.employees.find? (fun e => e.id == employee_id) with
    | none => (db, false, "Employee not found")
    | some emp =>
      let old_process := emp.process_name
      if old_process ≠ process_name then
        let ps1 :=
          match old_process with
          | some op => db.processes.map fun p =>
              if p.process_name == op then { p with vacancy := p.vacancy + 1 } else p
          | none => db.processes
        match process_name with
        | some np =>
          match ps1.find? (fun p => p.process_name == np) with
          | none => (db, false, "Process " ++ np ++ " not found")
          | some prow =>
            if prow.vacancy ≤ 0 then (db, false, "No vacancy available in " ++ np)
            else
              let rowcount :=
                (ps1.filter fun p => p.process_name == np && decide (0 < p.vacancy)).length
              if rowcount = 0 then (db, false, "Failed to update vacancy for " ++ np)
              else
                let ps2 := ps1.map fun p =>
                  if p.process_name == np && decide (0 < p.vacancy) then
                    { p with vacancy := p.vacancy - 1 }
                  else p
                let es := db.employees.map fun e =>
                  if e.id == employee_id then
                    { e with
                        name := name
                        email := email
                        potential := potential
                        communication := communication
                        process_id := some prow.id
                        process_name := some np }
                  else e
                if (db.employees.filter fun e => e.id == employee_id).length = 0 then
                  (db, false, "Employee not found or no changes made")
                else
                  ({ db with processes := ps2, employees := es }, true,
                    "Employee updated successfully")
        | none =>
          let es := db.employees.map fun e =>
            if e.id == employee_id then
              { e with
                  name := name
                  email := email
                  potential := potential
                  communication := communication
                  process_id := none
                  process_name := none }
            else e
          if (db.employees.filter fun e => e.id == employee_id).length = 0 then
            (db, false, "Employee not found or no changes made")
          else
            ({ db with processes := ps1, employees := es }, true, "Employee updated successfully")
      else
        let process_id :=
          match process_name with
          | some pn => (db.processes.find? (fun p => p.process_name == pn)).map (·.id)
          | none => none
        let es := db.employees.map fun e =>
          if e.id == employee_id then
            { e with
                name := name
                email := email
                potential := potential
                communication := communication
                process_id := process_id
                process_name := process_name }
          else e
        if (db.employees.filter fun e => e.id == employee_id).length = 0 then
          (db, false, "Employee not found or no changes made")
        else
          ({ db with employees := es }, true, "Employee updated successfully")

/-- `database.delete_employee`: look the employee up, delete it, double-check
the deletion, sweep any row that still carries the same email, and give the
slot back to the assigned process with the unconditional `vacancy + 1`. -/
def delete_employee (db : DB) (employee_id : Nat) : DB × Bool × String :=
  match db.employees.find? (fun e => e.id == employee_id) with
  | none => (db, false, "Employee not found")
  | some emp =>
    if (db.employees.filter fun e => e.id == employee_id).length = 0 then
      (db, false, "Employee could not be deleted")
    else
      let es1 := db.employees.filter fun e => e.id != employee_id
      if 0 < (es1.filter fun e => e.id == employee_id).length then
        (db, false, "Failed to completely delete employee")
      else
        let es2 :=
          if 0 < (es1.filter fun e => pyLower e.email == pyLower emp.email).length then
            es1.filter fun e => !(pyLower e.email == pyLower emp.email)
          else es1
        let ps :=
          match emp.process_name with
          | some pn => db.processes.map fun p =>
              if p.process_name == pn then { p with vacancy := p.vacancy + 1 } else p
          | none => db.processes
        ({ db with employees := es2, processes := ps }, true,
          "Employee deleted and process vacancy updated")

/-- One raw row of an uploaded catalog file, after `pd.read_excel` /
`pd.read_csv`, with the four required columns present.  The `Vacancy` cell is
`some n` when `pd.to_numeric` can coerce it and `none` when it cannot. -/
structure RawRow where
  Process_Name : String
  Potential : String
  Communication : String
  Vacancy : Option Int
deriving Repr, DecidableEq

/-- The recognised `Potential` values (`data_handler.py`). -/
def valid_potentials : List String := ["Sales", "Consultation", "Service", "Support"]

/-- The recognised `Communication` values (`data_handler.py`). -/
def valid_communications : List String := ["Excellent", "Very Good", "Good"]

/-- pandas `.unique()` on a column: first occurrences, in order. -/
def uniqueVals (seen l : List String) : List String :=
  match l with
  | [] => []
  | x :: xs => if seen.contains x then uniqueVals seen xs else x :: uniqueVals (seen ++ [x]) xs

/-- The `', '.join(...)` of an error message. -/
def joinVals (l : List String) : String :=
  String.intercalate (String.mk [',', ' ']) l

/-- Error text of `data_handler.load_data` (the `src/data_handler.py` copy)
for invalid `Potential` values: it lists the offending values and the valid
set. -/
def invalidPotentialMsgSrc (invalid : List String) : String :=
  "Invalid potential values found: " ++ joinVals invalid ++ ". " ++
    "Valid values are: " ++ joinVals valid_potentials

/-- Error text of `src/data_handler.py` for invalid `Communication` values. -/
def invalidCommunicationMsgSrc (invalid : List String) : String :=
  "Invalid communication values found: " ++ joinVals invalid ++ ". " ++
    "Valid values are: " ++ joinVals valid_communications

/-- Error text of the `ProcessPotentialTracker-main/data_handler.py` copy for
invalid `Potential` values. -/
def invalidPotentialMsgMain (invalid : List String) : String :=
  "Invalid potential values: " ++ joinVals invalid ++ ". Valid values are: " ++
    joinVals valid_potentials

/-- Error text of `ProcessPotentialTracker-main/data_handler.py` for invalid
`Communication` values. -/
def invalidCommunicationMsgMain (invalid : List String) : String :=
  "Invalid communication values: " ++ joinVals invalid ++ ". Valid values are: " ++
    joinVals valid_communications

/-- Error text for a `Vacancy` column `pd.to_numeric` cannot coerce (both
`load_data` copies). -/
def vacancyMsg : String := "Vacancy must contain numeric values"

/-- Label the validated rows with their pandas `RangeIndex`, keeping the
`Vacancy` values as they are (`src/data_handler.py` applies no clamping). -/
def labelRows (i : Nat) : List RawRow → List SRow
  | [] => []
  | r :: rs => ⟨i, r.Process_Name, r.Potential, r.Communication, r.Vacancy.getD 0⟩ ::
      labelRows (i + 1) rs

/-- Label the validated rows with their pandas `RangeIndex` and clamp negative
vacancies to 0, as `.clip(lower=0)` does in
`ProcessPotentialTracker-main/data_handler.py`. -/
def labelRowsClamped (i : Nat) : List RawRow → List SRow
  | [] => []
  | r :: rs =>
    let v := r.Vacancy.getD 0
    ⟨i, r.Process_Name, r.Potential, r.Communication, if v < 0 then 0 else v⟩ ::
      labelRowsClamped (i + 1) rs

/-- `load_data` of `src/data_handler.py` (the copy `app.py` imports): reject a
`Vacancy` column with a non-coercible cell, reject unknown `Potential` then
`Communication` values with messages listing the offending values and the
valid set, and otherwise return the rows — with no clamping of negative
vacancies. -/
def load_data_src (rows : List RawRow) : Except String (List SRow) :=
  if rows.any (fun r => r.Vacancy.isNone) then .error vacancyMsg
  else
    let invalid_potentials :=
      uniqueVals [] ((rows.filter fun r => !(valid_potentials.contains r.Potential)).map
        (·.Potential))
    if 0 < invalid_potentials.length then .error (invalidPotentialMsgSrc invalid_potentials)
    else
      let invalid_communications :=
        uniqueVals [] ((rows.filter fun r => !(valid_communications.contains r.Communication)).map
          (·.Communication))
      if 0 < invalid_communications.length then
        .error (invalidCommunicationMsgSrc invalid_communications)
      else .ok (labelRows 0 rows)

/-- `load_data` of `ProcessPotentialTracker-main/data_handler.py`: the same
checks after stripping the string columns, and with negative vacancies
clamped to 0 by `.clip(lower=0)`. -/
def load_data_main (rows : List RawRow) : Except String (List SRow) :=
  let rows := rows.map fun r =>
    { r with
        Process_Name := pyStrip r.Process_Name
        Potential := pyStrip r.Potential
        Communication := pyStrip r.Communication }
  if rows.any (fun r => r.Vacancy.isNone) then .error vacancyMsg
  else
    let invalid_potentials :=
      uniqueVals [] ((rows.filter fun r => !(valid_potentials.contains r.Potential)).map
        (·.Potential))
    if 0 < invalid_potentials.length then .error (invalidPotentialMsgMain invalid_potentials)
    else
      let invalid_communications :=
        uniqueVals [] ((rows.filter fun r => !(valid_communications.contains r.Communication)).map
          (·.Communication))
      if 0 < invalid_communications.length then
        .error (invalidCommunicationMsgMain invalid_communications)
      else .ok (labelRowsClamped 0 rows)

/-- Give the inserted process rows their `AUTOINCREMENT` ids. -/
def insertProcesses (i : Nat) : List SRow → List PRow
  | [] => []
  | r :: rs => ⟨i, r.Process_Name, r.Potential, r.Communication, r.Vacancy⟩ ::
      insertProcesses (i + 1) rs

/-- `database.save_processes_to_db`: `DELETE FROM processes` then insert every
uploaded row (the bulk replace of a catalog import). -/
def save_processes_to_db (db : DB) (process_data : List SRow) : DB × Bool :=
  ({ db with
      processes := insertProcesses db.next_pid process_data
      next_pid := db.next_pid + process_data.length }, true)

/-- Outcome of one Streamlit interaction: the session catalog, the database
and the message surfaced to the user (`none` when no error was shown). -/
structure UploadResult where
  session : Option (List SRow)
  db : DB
  error_msg : Option String
deriving Repr, DecidableEq

/-- The upload branch of `app.py` (lines 47-56): `load_data` the file into
the session state and save it to the database; any exception is caught and
shown, leaving both the session catalog and the database as they were. -/
def upload_handler (session : Option (List SRow)) (db : DB) (rows : List RawRow) :
    UploadResult :=
  match load_data_src rows with
  | .ok data => ⟨some data, (save_processes_to_db db data).1, none⟩
  | .error e => ⟨session, db, some ("Error loading data: " ++ e)⟩

/-- Outcome of one submission of the Add New Employee form. -/
structure FormResult where
  session : List SRow
  db : DB
  error_msg : Option String
deriving Repr, DecidableEq

/-- Message shown when the form is submitted without a name. -/
def msgNoName : String := "Please enter an employee name"

/-- `process_data['Process_Name'] == process_name` with `process_name` a
whole pandas Series: pandas raises unless the two Series carry identical
index labels. -/
def msgSeriesCompare : String :=
  "ValueError: Can only compare identically-labeled Series objects"

/-- `.index[0]` on an empty selection. -/
def msgIndexEmpty : String := "IndexError: index 0 is out of bounds"

/-- `db.update_process_vacancy(process_name, -1)` with `process_name` a whole
pandas Series: sqlite3 cannot bind a Series as a parameter. -/
def msgSqlBind : String :=
  "InterfaceError: Error binding parameter 2 - probably unsupported type"

/-- `db.add_employee(employee_name, potential, communication)` passes three
positional arguments to a function requiring four. -/
def msgAddArity : String :=
  "TypeError: add_employee() missing 1 required positional argument: communication"

/-- The employee-form allocation flow of `app.py` (lines 179-214).  On a
match the code takes `matching_process['Process_Name']` — the whole column,
a pandas Series — compares the session catalog's name column against it
(which raises unless the index labels coincide), decrements the session
catalog's `Vacancy` at the first `True` label, and then crashes inside
`db.update_process_vacancy` when sqlite3 refuses to bind the Series, so the
database is never touched and `db.add_employee` on line 207 is never
reached.  On no match, line 213 calls `db.add_employee` with a missing
positional argument and crashes before recording anything.  Streamlit keeps
the session-state mutations made before the exception. -/
def employee_form_submit (session : List SRow) (db : DB)
    (employee_name potential communication : String) : FormResult :=
  if employee_name == "" then ⟨session, db, some msgNoName⟩
  else
    match find_matching_process session potential communication with
    | some matching =>
      if session.map (·.label) == matching.map (·.label) then
        let mask := List.zipWith (fun a b => a.Process_Name == b.Process_Name) session matching
        match ((session.zip mask).filter (·.2)).head? with
        | none => ⟨session, db, some msgIndexEmpty⟩
        | some (row, _) =>
          let session' := session.map fun r =>
            if r.label = row.label then { r with Vacancy := r.Vacancy - 1 } else r
          ⟨session', db, some msgSqlBind⟩
      else ⟨session, db, some msgSeriesCompare⟩
    | none => ⟨session, db, some msgAddArity⟩

/-- One call against the store: the four mutating `database.py` operations a
user can trigger (allocation, reassignment, deletion, manual vacancy edit). -/
inductive DbOp where
  | addEmp (name email potential communication : String) (process_name : Option String)
  | updEmp (employee_id : Nat) (name email potential communication : String)
      (process_name : Option String)
  | delEmp (employee_id : Nat)
  | updVac (process_name : String) (change : Int)
deriving Repr, DecidableEq

/-- Run one operation, keeping the resulting database. -/
def applyOp (db : DB) : DbOp → DB
  | .addEmp n e p c pn => (add_employee db n e p c pn).1
  | .updEmp i n e p c pn => (update_employee db i n e p c pn).1
  | .delEmp i => (delete_employee db i).1
  | .updVac pn ch => (update_process_vacancy db pn ch).1

/-- Run a sequence of operations. -/
def applyOps (db : DB) (ops : List DbOp) : DB := ops.foldl applyOp db

/-- The catalog invariant: every process row has vacancy ≥ 0. -/
def ProcessesNonneg (db : DB) : Prop := ∀ p ∈ db.processes, 0 ≤ p.vacancy

instance (db : DB) : Decidable (ProcessesNonneg db) := by
  unfold ProcessesNonneg
  infer_instance

/-- A concrete catalog for exercising the store operations. -/
def dbW : DB :=
  ⟨[⟨1, "Sales Support", "Sales", "Good", 5⟩, ⟨2, "Ather CC", "Service", "Good", 2⟩], [], 3, 1⟩

/-- A sequence exercising all four mutating operations: an allocation into
Ather CC, a reassignment to Sales Support, a manual decrease past zero and a
deletion. -/
def opsW : List DbOp :=
  [DbOp.addEmp "John Doe" "john@example.com" "Service" "Good" (some "Ather CC"),
   DbOp.updEmp 1 "John Doe" "john@example.com" "Sales" "Good" (some "Sales Support"),
   DbOp.updVac "Ather CC" (-5),
   DbOp.delEmp 1]

/-- A process standing at vacancy 0, to exercise the clamped decrement. -/
def dbW10 : DB := ⟨[⟨1, "Ather CC", "Service", "Good", 0⟩], [], 2, 1⟩

/-- A catalog with an exact match for (Service, Good), a potential-only
fall-back for (Consultation, Good), and nothing at all for (Support, Good). -/
def dataC3 : List SRow :=
  [⟨0, "TVS CC", "Service", "Good", 20⟩, ⟨1, "CW Massbrand", "Consultation", "Excellent", 9⟩]

/-- Two matching processes with equal vacancy named Alpha and Beta, stored
Beta first. -/
def dataC4 : List SRow :=
  [⟨0, "Beta", "Service", "Good", 2⟩, ⟨1, "Alpha", "Service", "Good", 2⟩]

/-- A database whose single process Alpha has exactly one vacancy. -/
def dbC2 : DB := ⟨[⟨1, "Alpha", "Service", "Good", 1⟩], [], 2, 1⟩

/-- The session-state catalog matching `dbC2`. -/
def sessionC2 : List SRow := [⟨0, "Alpha", "Service", "Good", 1⟩]

/-- A database and session whose single process Alpha has two vacancies. -/
def dbC5 : DB := ⟨[⟨1, "Alpha", "Service", "Good", 2⟩], [], 2, 1⟩

/-- The session-state catalog matching `dbC5`. -/
def sessionC5 : List SRow := [⟨0, "Alpha", "Service", "Good", 2⟩]

/-- A previously installed session catalog, for the C8 witness. -/
def sessionC8 : Option (List SRow) := some [⟨0, "Alpha", "Sales", "Good", 1⟩]

/-- The database standing behind `sessionC8`. -/
def dbC8 : DB := ⟨[⟨1, "Alpha", "Sales", "Good", 1⟩], [], 2, 1⟩

/-- An upload carrying a potential value outside the recognised set. -/
def rowsC8 : List RawRow :=
  [⟨"Beta", "Marketing", "Good", some 4⟩, ⟨"Gamma", "Sales", "Good", some 2⟩]

/-- A catalog with Alpha (2 slots) and Beta (1 slot) and one employee
assigned to Alpha. -/
def dbC6 : DB :=
  ⟨[⟨1, "Alpha", "Service", "Good", 2⟩, ⟨2, "Beta", "Sales", "Good", 1⟩],
   [⟨1, "John Doe", "john@example.com", "Service", "Good", some 1, some "Alpha"⟩], 3, 2⟩

/-- The employee row stored in `dbC6`. -/
def empC6 : EmployeeRow :=
  ⟨1, "John Doe", "john@example.com", "Service", "Good", some 1, some "Alpha"⟩

/-- A catalog with Alpha at vacancy 5 and one employee assigned to Alpha. -/
def dbC9 : DB :=
  ⟨[⟨1, "Alpha", "Service", "Good", 5⟩],
   [⟨1, "Jane Roe", "jane@example.com", "Service", "Good", some 1, some "Alpha"⟩], 2, 2⟩

theorem toNat_lowerChar (c : Char) :
    (lowerChar c).toNat = if 65 ≤ c.toNat ∧ c.toNat ≤ 90 then c.toNat + 32 else c.toNat := by
  unfold lowerChar
  split
  · rfl
  · rfl

theorem lowerChar_not_upper (c : Char) :
    ¬ (65 ≤ (lowerChar c).toNat ∧ (lowerChar c).toNat ≤ 90) := by
  rw [toNat_lowerChar]
  split <;> omega

theorem lowerChar_eq_of_not_upper (c : Char) (h : ¬ (65 ≤ c.toNat ∧ c.toNat ≤ 90)) :
    lowerChar c = c := by
  unfold lowerChar
  rw [dif_neg h]

theorem lowerChar_idem (c : Char) : lowerChar (lowerChar c) = lowerChar c :=
  lowerChar_eq_of_not_upper _ (lowerChar_not_upper c)

theorem pyLower_idem (s : String) : pyLower (pyLower s) = pyLower s := by
  unfold pyLower
  simp [List.map_map, Function.comp_def, lowerChar_idem]

theorem lexLeCh_total : ∀ a b, lexLeCh a b = true ∨ lexLeCh b a = true := by
  intro a
  induction a with
  | nil => intro b; left; rfl
  | cons x xs ih =>
    intro b
    cases b with
    | nil => right; rfl
    | cons y ys =>
      simp only [lexLeCh]
      rcases Nat.lt_trichotomy x.toNat y.toNat with h | h | h
      · left; simp [h]
      · have h1 : ¬ x.toNat < y.toNat := by omega
        have h2 : ¬ y.toNat < x.toNat := by omega
        simpa [h1, h2] using ih ys
      · right; simp [h]

theorem lexLeCh_trans : ∀ a b c, lexLeCh a b = true → lexLeCh b c = true →
    lexLeCh a c = true := by
  intro a
  induction a with
  | nil => intro b c _ _; rfl
  | cons x xs ih =>
    intro b c hab hbc
    cases b with
    | nil => simp [lexLeCh] at hab
    | cons y ys =>
      cases c with
      | nil => simp [lexLeCh] at hbc
      | cons z zs =>
        simp only [lexLeCh] at hab hbc ⊢
        by_cases h1 : x.toNat < y.toNat
        · by_cases h2 : y.toNat < z.toNat
          · simp [show x.toNat < z.toNat from Nat.lt_trans h1 h2]
          · by_cases h3 : z.toNat < y.toNat
            · simp [h2, h3] at hbc
            · simp [show x.toNat < z.toNat by omega]
        · by_cases h4 : y.toNat < x.toNat
          · simp [h1, h4] at hab
          · by_cases h2 : y.toNat < z.toNat
            · simp [show x.toNat < z.toNat by omega]
            · by_cases h3 : z.toNat < y.toNat
              · simp [h2, h3] at hbc
              · simp [h1, h4] at hab
                simp [h2, h3] at hbc
                simp [show ¬ x.toNat < z.toNat by omega, show ¬ z.toNat < x.toNat by omega]
                exact ih _ _ hab hbc

theorem procOrd_total : IsTotal SRow procOrd := by
  constructor
  intro a b
  rcases lt_trichotomy a.Vacancy b.Vacancy with h | h | h
  · exact Or.inr (Or.inl h)
  · rcases lexLeCh_total a.Process_Name.data b.Process_Name.data with hn | hn
    · exact Or.inl (Or.inr ⟨h, hn⟩)
    · exact Or.inr (Or.inr ⟨h.symm, hn⟩)
  · exact Or.inl (Or.inl h)

theorem procOrd_trans : IsTrans SRow procOrd := by
  constructor
  intro a b c hab hbc
  rcases hab with h1 | ⟨h1, h1n⟩
  · rcases hbc with h2 | ⟨h2, _⟩
    · exact Or.inl (h2.trans h1)
    · exact Or.inl (h2 ▸ h1)
  · rcases hbc with h2 | ⟨h2, h2n⟩
    · exact Or.inl (h1 ▸ h2)
    · exact Or.inr ⟨h1.trans h2, lexLeCh_trans _ _ _ h1n h2n⟩

theorem find?_map_congr {α : Type} (f : α → α) (p : α → Bool) (hp : ∀ a, p (f a) = p a)
    (l : List α) : (l.map f).find? p = (l.find? p).map f := by
  induction l with
  | nil => rfl
  | cons x xs ih =>
    cases h : p x with
    | true =>
      have hfx : p (f x) = true := (hp x).trans h
      rw [List.map_cons, List.find?_cons_of_pos _ hfx, List.find?_cons_of_pos _ h]
      rfl
    | false =>
      have hfx : p (f x) = false := (hp x).trans h
      rw [List.map_cons, List.find?_cons_of_neg _ (by simp [hfx]),
        List.find?_cons_of_neg _ (by simp [h])]
      exact ih

theorem nonneg_map {f : PRow → PRow} (hf : ∀ p : PRow, 0 ≤ p.vacancy → 0 ≤ (f p).vacancy)
    {ps : List PRow} (h : ∀ p ∈ ps, 0 ≤ p.vacancy) : ∀ q ∈ ps.map f, 0 ≤ q.vacancy := by
  intro q hq
  rw [List.mem_map] at hq
  obtain ⟨p, hp, rfl⟩ := hq
  exact hf p (h p hp)

theorem incr_keeps_nonneg (s : String) (c : Int) (hc : 0 ≤ c) (p : PRow)
    (h : 0 ≤ p.vacancy) :
    0 ≤ (if p.process_name == s then { p with vacancy := p.vacancy + c } else p).vacancy := by
  split
  · simpa using by omega
  · exact h

theorem clamp_keeps_nonneg (s : String) (c : Int) (p : PRow) (h : 0 ≤ p.vacancy) :
    0 ≤ (if p.process_name == s then
        { p with vacancy := if p.vacancy + c < 0 then 0 else p.vacancy + c }
      else p).vacancy := by
  split
  · show (0 : Int) ≤ if p.vacancy + c < 0 then 0 else p.vacancy + c
    split <;> omega
  · exact h

theorem decr_keeps_nonneg (s : String) (p : PRow) (h : 0 ≤ p.vacancy) :
    0 ≤ (if p.process_name == s && decide (0 < p.vacancy) then
        { p with vacancy := p.vacancy - 1 }
      else p).vacancy := by
  split
  · next hcond =>
    have : 0 < p.vacancy := by
      have := (Bool.and_eq_true _ _).mp hcond
      simpa using this.2
    show (0 : Int) ≤ p.vacancy - 1
    omega
  · exact h

theorem update_process_vacancy_nonneg (db : DB) (s : String) (c : Int)
    (h : ProcessesNonneg db) : ProcessesNonneg (update_process_vacancy db s c).1 := by
  unfold ProcessesNonneg at h ⊢
  simp only [update_process_vacancy]
  split
  · exact h
  · split
    · exact nonneg_map (clamp_keeps_nonneg s c) h
    · next hc => exact nonneg_map (incr_keeps_nonneg s c (by omega)) h

theorem add_employee_nonneg (db : DB) (n e p c : String) (pn : Option String)
    (h : ProcessesNonneg db) : ProcessesNonneg (add_employee db n e p c pn).1 := by
  unfold ProcessesNonneg at h ⊢
  simp only [add_employee]
  split
  · exact h
  · split
    · split
      · exact h
      · split
        · exact h
        · split
          · exact h
          · exact nonneg_map (decr_keeps_nonneg _) h
    · exact h

theorem update_employee_nonneg (db : DB) (i : Nat) (n e p c : String) (pn : Option String)
    (h : ProcessesNonneg db) : ProcessesNonneg (update_employee db i n e p c pn).1 := by
  unfold ProcessesNonneg at h ⊢
  simp only [update_employee]
  split
  · exact h
  · split
    · exact h
    · next emp _ =>
      split
      · cases hop : emp.process_name with
        | none =>
          simp only [hop]
          split
          · split
            · exact h
            · split
              · exact h
              · split
                · exact h
                · split
                  · exact h
                  · exact nonneg_map (decr_keeps_nonneg _) h
          · split
            · exact h
            · exact h
        | some op =>
          simp only [hop]
          split
          · split
            · exact h
            · split
              · exact h
              · split
                · exact h
                · split
                  · exact h
                  · exact nonneg_map (decr_keeps_nonneg _)
                      (nonneg_map (incr_keeps_nonneg op 1 (by omega)) h)
          · split
            · exact h
            · exact nonneg_map (incr_keeps_nonneg op 1 (by omega)) h
      · split
        · exact h
        · exact h

theorem delete_employee_nonneg (db : DB) (i : Nat) (h : ProcessesNonneg db) :
    ProcessesNonneg (delete_employee db i).1 := by
  unfold ProcessesNonneg at h ⊢
  simp only [delete_employee]
  split
  · exact h
  · next emp _ =>
    split
    · exact h
    · split
      · exact h
      · cases hop : emp.process_name with
        | none => simp only [hop]; exact h
        | some pn => simp only [hop]; exact nonneg_map (incr_keeps_nonneg pn 1 (by omega)) h

theorem applyOp_nonneg (db : DB) (op : DbOp) (h : ProcessesNonneg db) :
    ProcessesNonneg (applyOp db op) := by
  cases op with
  | addEmp n e p c pn => exact add_employee_nonneg db n e p c pn h
  | updEmp i n e p c pn => exact update_employee_nonneg db i n e p c pn h
  | delEmp i => exact delete_employee_nonneg db i h
  | updVac pn ch => exact update_process_vacancy_nonneg db pn ch h

/-- Claim C1: for every process in the catalog and after every sequence of
allocation (`add_employee`), reassignment (`update_employee`), deletion
(`delete_employee`) and manual vacancy-update (`update_process_vacancy`)
operations, the process's vacancy count is greater than or equal to 0. -/
theorem C1_vacancy_invariant (db : DB) (ops : List DbOp) (h : ProcessesNonneg db) :
    ProcessesNonneg (applyOps db ops) := by
  induction ops generalizing db with
  | nil => exact h
  | cons op rest ih => exact ih _ (applyOp_nonneg db op h)

/-- Witness for C1 at a concrete catalog and operation sequence. -/
theorem C1_witness : ProcessesNonneg dbW ∧ ProcessesNonneg (applyOps dbW opsW) :=
  ⟨by decide, C1_vacancy_invariant dbW opsW (by decide)⟩

/-- Claim C10: for an existing process name and a negative change,
`update_process_vacancy` reports success even when the vacancy is already 0
or the decrement would go below 0 — it clamps the result at 0 — and it
returns `false` exactly when no process with the given name exists. -/
theorem C10_update_vacancy_reports (db : DB) (n : String) (c : Int) (hneg : c < 0) :
    ((update_process_vacancy db n c).2 = true ↔
      db.processes.any (fun p => p.process_name == n) = true)
    ∧ (∀ prow, db.processes.find? (fun p => p.process_name == n) = some prow →
        prow.vacancy + c < 0 →
        vacancyOf (update_process_vacancy db n c).1.processes n = some 0) := by
  simp only [update_process_vacancy, if_pos hneg]
  by_cases hrc : (db.processes.filter fun p => p.process_name == n).length = 0
  · rw [if_pos hrc]
    have hnone : ∀ p ∈ db.processes, ¬ (p.process_name == n) = true := by
      rw [List.length_eq_zero, List.filter_eq_nil_iff] at hrc
      exact hrc
    constructor
    · constructor
      · intro habs
        simp at habs
      · intro hany
        rw [List.any_eq_true] at hany
        obtain ⟨x, hx, hpx⟩ := hany
        exact absurd hpx (hnone x hx)
    · intro prow hfind _
      have hp := List.find?_some hfind
      exact absurd hp (hnone prow (List.mem_of_find?_eq_some hfind))
  · rw [if_neg hrc]
    have hex : ∃ x ∈ db.processes, (x.process_name == n) = true := by
      rcases List.length_pos.mp (Nat.pos_of_ne_zero hrc) with h
      obtain ⟨x, hx⟩ := List.exists_mem_of_ne_nil _ h
      have hx' := List.mem_filter.mp hx
      exact ⟨x, hx'.1, hx'.2⟩
  -- the verifying re-read finds the process again: the clamped update keeps names
    have hname : ∀ p : PRow,
        ((fun q => q.process_name == n)
          (if p.process_name == n then
            { p with vacancy := if p.vacancy + c < 0 then 0 else p.vacancy + c }
          else p)) = ((fun q => q.process_name == n) p) := by
      intro p
      by_cases hp : (p.process_name == n) = true
      · simp [hp]
      · simp [hp]
    constructor
    · simp only []
      constructor
      · intro _
        rw [List.any_eq_true]
        exact hex
      · intro _
        rw [find?_map_congr _ _ hname]
        obtain ⟨x, hx, hpx⟩ := hex
        have : (db.processes.find? fun p => p.process_name == n).isSome := by
          rw [List.find?_isSome]
          exact ⟨x, hx, hpx⟩
        cases hfind : db.processes.find? fun p => p.process_name == n with
        | none => rw [hfind] at this; simp at this
        | some y => simp
    · intro prow hfind hclamp
      unfold vacancyOf
      simp only []
      rw [find?_map_congr _ _ hname, hfind]
      have hp := List.find?_some hfind
      simp [hp, if_pos hclamp, beq_iff_eq.mp hp]

/-- Witness for C10: decreasing the vacancy of a process that is already at
0 still reports success, and the vacancy stays clamped at 0. -/
theorem C10_witness :
    ((update_process_vacancy dbW10 "Ather CC" (-1)).2 = true ↔
      dbW10.processes.any (fun p => p.process_name == "Ather CC") = true)
    ∧ vacancyOf (update_process_vacancy dbW10 "Ather CC" (-1)).1.processes "Ather CC" =
        some 0 := by
  have h := C10_update_vacancy_reports dbW10 "Ather CC" (-1) (by decide)
  exact ⟨h.1, h.2 ⟨1, "Ather CC", "Service", "Good", 0⟩ (by decide) (by decide)⟩

/-- Normal form of the matcher: empty catalog gives `none`; otherwise the
sorted pass-1 set when non-empty, else the sorted pass-2 set when non-empty,
else `none`. -/
theorem find_matching_process_eq (data : List SRow) (p c : String) :
    find_matching_process data p c =
      if data.isEmpty then none
      else if (specPass1 data p c).isEmpty then
        if (specPass2 data p).isEmpty then none
        else some (List.insertionSort procOrd (specPass2 data p))
      else some (List.insertionSort procOrd (specPass1 data p c)) := by
  simp only [find_matching_process, specPass1, specPass2, specClean]
  by_cases h : data.isEmpty
  · simp [h]
  · simp only [if_neg h]
    split
    · split <;> simp_all
    · simp_all

/-- Claim C3: the matcher first selects all processes with equal potential,
equal communication and vacancy > 0; only when that set is empty does it
select all processes with equal potential and vacancy > 0 (communication
ignored); when no process with matching potential and vacancy > 0 exists it
returns no result — there is no third tier relaxing potential. -/
theorem C3_matcher_tiers (data : List SRow) (p c : String) :
    (specPass1 data p c ≠ [] →
      ∃ l, find_matching_process data p c = some l ∧ l.Perm (specPass1 data p c)) ∧
    (specPass1 data p c = [] → specPass2 data p ≠ [] →
      ∃ l, find_matching_process data p c = some l ∧ l.Perm (specPass2 data p)) ∧
    (specPass2 data p = [] → find_matching_process data p c = none) := by
  refine ⟨?_, ?_, ?_⟩
  · intro h1
    have hd : ¬ data.isEmpty = true := by
      intro hd
      rw [List.isEmpty_iff] at hd
      subst hd
      simp [specPass1, specClean] at h1
    rw [find_matching_process_eq, if_neg hd, if_neg (by simpa [List.isEmpty_iff] using h1)]
    exact ⟨_, rfl, List.perm_insertionSort _ _⟩
  · intro h1 h2
    have hd : ¬ data.isEmpty = true := by
      intro hd
      rw [List.isEmpty_iff] at hd
      subst hd
      simp [specPass2, specClean] at h2
    rw [find_matching_process_eq, if_neg hd, if_pos (by simpa [List.isEmpty_iff] using h1),
      if_neg (by simpa [List.isEmpty_iff] using h2)]
    exact ⟨_, rfl, List.perm_insertionSort _ _⟩
  · intro h2
    have h1 : specPass1 data p c = [] := by
      rw [specPass2, List.filter_eq_nil_iff] at h2
      rw [specPass1, List.filter_eq_nil_iff]
      intro a ha hq
      refine h2 a ha ?_
      simp only [Bool.and_eq_true] at hq ⊢
      exact ⟨hq.1.1, hq.2⟩
    by_cases hd : data.isEmpty
    · rw [find_matching_process_eq, if_pos hd]
    · rw [find_matching_process_eq, if_neg hd, if_pos (by simp [h1]), if_pos (by simp [h2])]

/-- Witness for C3: pass 1 fires on an exact match, pass 2 fires when only
communication differs, and a potential with no vacancies yields no result. -/
theorem C3_witness :
    (∃ l, find_matching_process dataC3 "Service" "Good" = some l ∧
      l.Perm (specPass1 dataC3 "Service" "Good")) ∧
    (∃ l, find_matching_process dataC3 "Consultation" "Good" = some l ∧
      l.Perm (specPass2 dataC3 "Consultation")) ∧
    find_matching_process dataC3 "Support" "Good" = none :=
  ⟨(C3_matcher_tiers dataC3 "Service" "Good").1 (by decide),
   (C3_matcher_tiers dataC3 "Consultation" "Good").2.1 (by decide) (by decide),
   (C3_matcher_tiers dataC3 "Support" "Good").2.2 (by decide)⟩

/-- Claim C4: every non-empty matcher result is ordered by vacancy
descending and, among processes with equal vacancy, by process name
ascending. -/
theorem C4_result_sorted (data : List SRow) (p c : String) (l : List SRow)
    (h : find_matching_process data p c = some l) :
    l.Sorted fun a b =>
      b.Vacancy < a.Vacancy ∨
        (a.Vacancy = b.Vacancy ∧ nameLe a.Process_Name b.Process_Name = true) := by
  haveI := procOrd_total
  haveI := procOrd_trans
  rw [find_matching_process_eq] at h
  by_cases hd : data.isEmpty
  · rw [if_pos hd] at h
    cases h
  · rw [if_neg hd] at h
    by_cases h1 : (specPass1 data p c).isEmpty
    · rw [if_pos h1] at h
      by_cases h2 : (specPass2 data p).isEmpty
      · rw [if_pos h2] at h
        cases h
      · rw [if_neg h2] at h
        have hl : List.insertionSort procOrd (specPass2 data p) = l := by injection h
        subst hl
        exact List.sorted_insertionSort procOrd _
    · rw [if_neg h1] at h
      have hl : List.insertionSort procOrd (specPass1 data p c) = l := by injection h
      subst hl
      exact List.sorted_insertionSort procOrd _

/-- Witness for C4: with equal vacancies the matcher returns Alpha before
Beta, and the returned list is sorted in the claimed order. -/
theorem C4_witness :
    find_matching_process dataC4 "Service" "Good" =
      some [⟨1, "Alpha", "Service", "Good", 2⟩, ⟨0, "Beta", "Service", "Good", 2⟩] ∧
    List.Sorted (fun a b : SRow =>
        b.Vacancy < a.Vacancy ∨
          (a.Vacancy = b.Vacancy ∧ nameLe a.Process_Name b.Process_Name = true))
      [⟨1, "Alpha", "Service", "Good", 2⟩, ⟨0, "Beta", "Service", "Good", 2⟩] :=
  ⟨by decide,
   C4_result_sorted dataC4 "Service" "Good"
     [⟨1, "Alpha", "Service", "Good", 2⟩, ⟨0, "Beta", "Service", "Good", 2⟩] (by decide)⟩

/-- Counterexample to claim C2: the vacancy decrement the employee form uses
(`update_process_vacancy` with change −1) is not a conditional
`vacancy > 0` update — against a process with vacancy 1 two successive
decrement calls both report success, the second merely clamping 0 to 0. -/
theorem C2_counterexample :
    (update_process_vacancy dbC2 "Alpha" (-1)).2 = true ∧
    (update_process_vacancy (update_process_vacancy dbC2 "Alpha" (-1)).1 "Alpha" (-1)).2 =
      true ∧
    vacancyOf (update_process_vacancy
        (update_process_vacancy dbC2 "Alpha" (-1)).1 "Alpha" (-1)).1.processes "Alpha" =
      some 0 := by
  decide

/-- Claim C2 as amended: with a single process at vacancy 1, the first form
submission decrements only the session copy (1 → 0) and errors out before
touching the database; the second submission finds no matching process and
fails; no vacancy ever becomes negative; but the decrement operation the form
calls is the clamped `update_process_vacancy`, which reports success both
times rather than failing a `vacancy > 0` conditional update. -/
theorem C2_amended :
    (employee_form_submit sessionC2 dbC2 "John Doe" "Service" "Good").session =
      [⟨0, "Alpha", "Service", "Good", 0⟩] ∧
    (employee_form_submit sessionC2 dbC2 "John Doe" "Service" "Good").db = dbC2 ∧
    (employee_form_submit sessionC2 dbC2 "John Doe" "Service" "Good").error_msg =
      some msgSqlBind ∧
    (employee_form_submit [⟨0, "Alpha", "Service", "Good", 0⟩] dbC2
        "Jane Roe" "Service" "Good").error_msg = some msgAddArity ∧
    (employee_form_submit [⟨0, "Alpha", "Service", "Good", 0⟩] dbC2
        "Jane Roe" "Service" "Good").session = [⟨0, "Alpha", "Service", "Good", 0⟩] ∧
    (employee_form_submit [⟨0, "Alpha", "Service", "Good", 0⟩] dbC2
        "Jane Roe" "Service" "Good").db = dbC2 ∧
    ProcessesNonneg dbC2 ∧
    (∀ r ∈ (employee_form_submit sessionC2 dbC2 "John Doe" "Service" "Good").session,
      0 ≤ r.Vacancy) ∧
    (update_process_vacancy dbC2 "Alpha" (-1)).2 = true ∧
    (update_process_vacancy (update_process_vacancy dbC2 "Alpha" (-1)).1 "Alpha" (-1)).2 =
      true := by
  decide

/-- Claim C5 evaluated at a failing input: after the matcher returns the
single candidate Alpha, the form flow decrements only the session copy and
then crashes binding the whole `Process_Name` Series as an SQL parameter —
the database vacancy is never decremented and no employee record referencing
Alpha (or any process) is ever created. -/
theorem C5_allocation_commit_bug :
    (employee_form_submit sessionC5 dbC5 "John Doe" "Service" "Good").error_msg =
      some msgSqlBind ∧
    (employee_form_submit sessionC5 dbC5 "John Doe" "Service" "Good").db = dbC5 ∧
    (employee_form_submit sessionC5 dbC5 "John Doe" "Service" "Good").db.employees = [] ∧
    (employee_form_submit sessionC5 dbC5 "John Doe" "Service" "Good").session =
      [⟨0, "Alpha", "Service", "Good", 1⟩] := by
  decide

/-- Counterexample to claim C7: the `load_data` copy that `app.py` imports
(`src/data_handler.py`) validates a catalog whose vacancy is negative without
clamping it — the import succeeds and the installed row keeps vacancy −3. -/
theorem C7_counterexample :
    load_data_src [⟨"Alpha", "Sales", "Good", some (-3)⟩] =
      Except.ok [⟨0, "Alpha", "Sales", "Good", -3⟩] ∧
    ((-3 : Int) < 0) :=
  ⟨rfl, by decide⟩

theorem labelRowsClamped_nonneg (rs : List RawRow) :
    ∀ (i : Nat), ∀ r ∈ labelRowsClamped i rs, 0 ≤ r.Vacancy := by
  induction rs with
  | nil =>
    intro i r hr
    simp [labelRowsClamped] at hr
  | cons x xs ih =>
    intro i r hr
    simp only [labelRowsClamped, List.mem_cons] at hr
    rcases hr with rfl | hr
    · show (0 : Int) ≤ if x.Vacancy.getD 0 < 0 then 0 else x.Vacancy.getD 0
      split <;> omega
    · exact ih (i + 1) r hr

/-- Claim C7 as amended: both `load_data` copies reject a `Vacancy` column
with a non-coercible cell, and the `ProcessPotentialTracker-main` copy clamps
negative vacancies to 0 so that every row of a catalog it validates has
vacancy ≥ 0; the `src/data_handler.py` copy that `app.py` imports performs no
clamping (see the counterexample). -/
theorem C7_amended (rows : List RawRow) :
    (rows.any (fun r => r.Vacancy.isNone) = true →
      load_data_main rows = Except.error vacancyMsg ∧
      load_data_src rows = Except.error vacancyMsg) ∧
    (∀ ps, load_data_main rows = Except.ok ps → ∀ r ∈ ps, 0 ≤ r.Vacancy) := by
  constructor
  · intro h
    constructor
    · have h' : ((rows.map fun r =>
          { r with
              Process_Name := pyStrip r.Process_Name
              Potential := pyStrip r.Potential
              Communication := pyStrip r.Communication }).any
            fun r => r.Vacancy.isNone) = true := by
        rw [List.any_map]
        exact h
      simp only [load_data_main]
      rw [if_pos h']
    · simp only [load_data_src]
      rw [if_pos h]
  · intro ps hok r hr
    simp only [load_data_main] at hok
    split at hok
    · simp at hok
    · split at hok
      · simp at hok
      · split at hok
        · simp at hok
        · have hps : labelRowsClamped 0 (rows.map fun r =>
              { r with
                  Process_Name := pyStrip r.Process_Name
                  Potential := pyStrip r.Potential
                  Communication := pyStrip r.Communication }) = ps := by
            injection hok
          rw [← hps] at hr
          exact labelRowsClamped_nonneg _ 0 r hr

/-- Witness for C7 (amended): a non-numeric vacancy cell is rejected by both
validators, and a negative vacancy is clamped to 0 by the
`ProcessPotentialTracker-main` validator. -/
theorem C7_witness :
    (load_data_main [⟨"Alpha", "Sales", "Good", none⟩] = Except.error vacancyMsg ∧
      load_data_src [⟨"Alpha", "Sales", "Good", none⟩] = Except.error vacancyMsg) ∧
    ∀ r ∈ [(⟨0, "Alpha", "Sales", "Good", 0⟩ : SRow)], 0 ≤ r.Vacancy :=
  ⟨(C7_amended [⟨"Alpha", "Sales", "Good", none⟩]).1 (by decide),
   (C7_amended [⟨"Alpha", "Sales", "Good", some (-3)⟩]).2
     [⟨0, "Alpha", "Sales", "Good", 0⟩] (by rfl)⟩

theorem filter_length_zero_of_any_false {α : Type} {p : α → Bool} {l : List α}
    (h : l.any p = false) : (l.filter p).length = 0 := by
  rw [List.length_eq_zero, List.filter_eq_nil_iff]
  intro a ha hpa
  have : l.any p = true := List.any_eq_true.mpr ⟨a, ha, hpa⟩
  rw [h] at this
  cases this

theorem find?_none_of_any_false {α : Type} {p : α → Bool} {l : List α}
    (h : l.any p = false) : l.find? p = none := by
  rw [List.find?_eq_none]
  intro a ha hpa
  have : l.any p = true := List.any_eq_true.mpr ⟨a, ha, hpa⟩
  rw [h] at this
  cases this

theorem filter_length_ne_zero_of_mem {α : Type} {p : α → Bool} {l : List α} {a : α}
    (ha : a ∈ l) (hpa : p a = true) : ¬ (l.filter p).length = 0 := by
  intro h
  rw [List.length_eq_zero] at h
  have : a ∈ l.filter p := List.mem_filter.mpr ⟨ha, hpa⟩
  rw [h] at this
  cases this

theorem uniqueVals_eq_nil {l : List String} :
    ∀ {seen : List String}, uniqueVals seen l = [] → ∀ x ∈ l, seen.contains x = true := by
  induction l with
  | nil =>
    intro seen _ x hx
    cases hx
  | cons a as ih =>
    intro seen h x hx
    simp only [uniqueVals] at h
    split at h
    · next hc =>
      rcases List.mem_cons.mp hx with rfl | hx'
      · exact hc
      · exact ih h x hx'
    · cases h

/-- Claim C8: for every uploaded catalog (with a numeric vacancy column)
containing a potential value outside the four recognised ones or a
communication value outside the three recognised ones, the upload handler
surfaces an error message listing the offending values and the valid set,
and installs nothing: the session catalog and the database stay exactly as
they were. -/
theorem C8_domain_validation_aborts (session : Option (List SRow)) (db : DB)
    (rows : List RawRow)
    (hnum : (rows.any fun r => r.Vacancy.isNone) = false)
    (hbad : (rows.any fun r => !(valid_potentials.contains r.Potential)) = true ∨
      (rows.any fun r => !(valid_communications.contains r.Communication)) = true) :
    (upload_handler session db rows).session = session ∧
    (upload_handler session db rows).db = db ∧
    ((upload_handler session db rows).error_msg =
        some ("Error loading data: " ++ invalidPotentialMsgSrc (uniqueVals []
          ((rows.filter fun r => !(valid_potentials.contains r.Potential)).map
            (·.Potential)))) ∨
      (upload_handler session db rows).error_msg =
        some ("Error loading data: " ++ invalidCommunicationMsgSrc (uniqueVals []
          ((rows.filter fun r => !(valid_communications.contains r.Communication)).map
            (·.Communication))))) := by
  simp only [upload_handler, load_data_src]
  rw [if_neg (by rw [hnum]; simp)]
  by_cases hpot : 0 < (uniqueVals []
      ((rows.filter fun r => !(valid_potentials.contains r.Potential)).map
        (·.Potential))).length
  · rw [if_pos hpot]
    exact ⟨rfl, rfl, Or.inl rfl⟩
  · have hpotnil : uniqueVals []
        ((rows.filter fun r => !(valid_potentials.contains r.Potential)).map
          (·.Potential)) = [] := by
      rw [← List.length_eq_zero]
      omega
    have hnopot : (rows.any fun r => !(valid_potentials.contains r.Potential)) = false := by
      by_contra hc
      have hany : (rows.any fun r => !(valid_potentials.contains r.Potential)) = true := by
        revert hc
        cases rows.any fun r => !(valid_potentials.contains r.Potential) <;> simp
      obtain ⟨a, ha, hpa⟩ := List.any_eq_true.mp hany
      have hmem : a.Potential ∈
          (rows.filter fun r => !(valid_potentials.contains r.Potential)).map (·.Potential) :=
        List.mem_map.mpr ⟨a, List.mem_filter.mpr ⟨ha, hpa⟩, rfl⟩
      have := uniqueVals_eq_nil hpotnil a.Potential hmem
      simp at this
    have hcomm : (rows.any fun r => !(valid_communications.contains r.Communication)) = true := by
      rcases hbad with hb | hb
      · rw [hnopot] at hb
        cases hb
      · exact hb
    rw [if_neg hpot]
    by_cases hcl : 0 < (uniqueVals []
        ((rows.filter fun r => !(valid_communications.contains r.Communication)).map
          (·.Communication))).length
    · rw [if_pos hcl]
      exact ⟨rfl, rfl, Or.inr rfl⟩
    · exfalso
      have hcomnil : uniqueVals []
          ((rows.filter fun r => !(valid_communications.contains r.Communication)).map
            (·.Communication)) = [] := by
        rw [← List.length_eq_zero]
        omega
      obtain ⟨a, ha, hpa⟩ := List.any_eq_true.mp hcomm
      have hmem : a.Communication ∈
          (rows.filter fun r => !(valid_communications.contains r.Communication)).map
            (·.Communication) :=
        List.mem_map.mpr ⟨a, List.mem_filter.mpr ⟨ha, hpa⟩, rfl⟩
      have := uniqueVals_eq_nil hcomnil a.Communication hmem
      simp at this

/-- Witness for C8: uploading a catalog with potential `Marketing` leaves the
session catalog and the database untouched and surfaces an error. -/
theorem C8_witness :
    (upload_handler sessionC8 dbC8 rowsC8).session = sessionC8 ∧
    (upload_handler sessionC8 dbC8 rowsC8).db = dbC8 ∧
    (upload_handler sessionC8 dbC8 rowsC8).error_msg ≠ none := by
  have h := C8_domain_validation_aborts sessionC8 dbC8 rowsC8 (by decide) (Or.inl (by decide))
  refine ⟨h.1, h.2.1, ?_⟩
  rcases h.2.2 with h3 | h3 <;> rw [h3] <;> simp

theorem find?_map_incr (ps : List PRow) (s n : String) :
    ((ps.map fun p => if p.process_name == s then { p with vacancy := p.vacancy + 1 } else p).find?
        fun p => p.process_name == n) =
      (ps.find? fun p => p.process_name == n).map
        fun p => if p.process_name == s then { p with vacancy := p.vacancy + 1 } else p :=
  find?_map_congr _ _
    (fun a => by
      show ((if a.process_name == s then { a with vacancy := a.vacancy + 1 } else a).process_name
          == n) = (a.process_name == n)
      split <;> rfl) ps

theorem find?_map_decr (ps : List PRow) (s n : String) :
    ((ps.map fun p =>
        if p.process_name == s && decide (0 < p.vacancy) then
          { p with vacancy := p.vacancy - 1 }
        else p).find? fun p => p.process_name == n) =
      (ps.find? fun p => p.process_name == n).map
        fun p =>
          if p.process_name == s && decide (0 < p.vacancy) then
            { p with vacancy := p.vacancy - 1 }
          else p :=
  find?_map_congr _ _
    (fun a => by
      show ((if a.process_name == s && decide (0 < a.vacancy) then
            { a with vacancy := a.vacancy - 1 }
          else a).process_name == n) = (a.process_name == n)
      split <;> rfl) ps

/-- Claim C6: reassigning an existing employee to a changed process is
all-or-nothing.  If the new process does not exist or has vacancy ≤ 0 the
whole operation fails and the database is returned unchanged — the old
process is not incremented, the new one is not decremented, the employee row
is untouched.  On success the old process's vacancy goes up by 1, the new
process's vacancy goes down by 1, and the employee row is rewritten, all in
the one transaction. -/
theorem C6_update_employee_transactional (db : DB) (eid : Nat)
    (nm em pot comm np : String) (emp : EmployeeRow)
    (hemp : db.employees.find? (fun e => e.id == eid) = some emp)
    (hchanged : emp.process_name ≠ some np) :
    ((db.processes.find? (fun p => p.process_name == np) = none ∨
        (∃ prow, db.processes.find? (fun p => p.process_name == np) = some prow ∧
          prow.vacancy ≤ 0)) →
      (update_employee db eid nm em pot comm (some np)).1 = db ∧
      (update_employee db eid nm em pot comm (some np)).2.1 = false) ∧
    (∀ prow, db.processes.find? (fun p => p.process_name == np) = some prow →
      0 < prow.vacancy →
      (db.employees.any fun e => pyLower e.email == pyLower (pyStrip em) && e.id != eid) =
        false →
      (update_employee db eid nm em pot comm (some np)).2.1 = true ∧
      vacancyOf (update_employee db eid nm em pot comm (some np)).1.processes np =
        some (prow.vacancy - 1) ∧
      (∀ op oprow, emp.process_name = some op →
        db.processes.find? (fun p => p.process_name == op) = some oprow →
        vacancyOf (update_employee db eid nm em pot comm (some np)).1.processes op =
          some (oprow.vacancy + 1)) ∧
      (update_employee db eid nm em pot comm (some np)).1.employees.find?
          (fun e => e.id == eid) =
        some { emp with
                name := nm, email := pyLower (pyStrip em), potential := pot,
                communication := comm, process_id := some prow.id,
                process_name := some np }) := by
  constructor
  · intro hbad
    by_cases hdup : (db.employees.any fun e =>
        pyLower e.email == pyLower (pyStrip em) && e.id != eid) = true
    · have hres : update_employee db eid nm em pot comm (some np) =
          (db, false, "Email already exists for another employee") := by
        simp only [update_employee]
        rw [if_pos hdup]
      rw [hres]
      exact ⟨rfl, rfl⟩
    · rcases hbad with hnone | ⟨prow, hfind, hvac⟩
      · cases hop : emp.process_name with
        | none =>
          have hres : update_employee db eid nm em pot comm (some np) =
              (db, false, "Process " ++ np ++ " not found") := by
            simp only [update_employee]
            rw [if_neg hdup]
            simp only [hemp]
            rw [if_pos hchanged]
            simp only [hop, hnone]
          rw [hres]
          exact ⟨rfl, rfl⟩
        | some op =>
          have hfind1 : ((db.processes.map fun p =>
              if p.process_name == op then { p with vacancy := p.vacancy + 1 } else p).find?
                fun p => p.process_name == np) = none := by
            rw [find?_map_incr, hnone]
            rfl
          have hres : update_employee db eid nm em pot comm (some np) =
              (db, false, "Process " ++ np ++ " not found") := by
            simp only [update_employee]
            rw [if_neg hdup]
            simp only [hemp]
            rw [if_pos hchanged]
            simp only [hop, hfind1]
          rw [hres]
          exact ⟨rfl, rfl⟩
      · have hnamenp := List.find?_some hfind
        have hprowname : prow.process_name = np := beq_iff_eq.mp hnamenp
        cases hop : emp.process_name with
        | none =>
          have hres : update_employee db eid nm em pot comm (some np) =
              (db, false, "No vacancy available in " ++ np) := by
            simp only [update_employee]
            rw [if_neg hdup]
            simp only [hemp]
            rw [if_pos hchanged]
            simp only [hop, hfind]
            rw [if_pos hvac]
          rw [hres]
          exact ⟨rfl, rfl⟩
        | some op =>
          have hne : op ≠ np := fun h => hchanged (by rw [hop, h])
          have hnameopP : ¬ prow.process_name = op := by
            rw [hprowname]
            exact Ne.symm hne
          have hfind1 : ((db.processes.map fun p =>
              if p.process_name == op then { p with vacancy := p.vacancy + 1 } else p).find?
                fun p => p.process_name == np) = some prow := by
            rw [find?_map_incr, hfind]
            simp [hnameopP]
          have hres : update_employee db eid nm em pot comm (some np) =
              (db, false, "No vacancy available in " ++ np) := by
            simp only [update_employee]
            rw [if_neg hdup]
            simp only [hemp]
            rw [if_pos hchanged]
            simp only [hop, hfind1]
            rw [if_pos hvac]
          rw [hres]
          exact ⟨rfl, rfl⟩
  · intro prow hfind hpos hnodup
    have hdup : ¬ (db.employees.any fun e =>
        pyLower e.email == pyLower (pyStrip em) && e.id != eid) = true := by
      rw [hnodup]
      simp
    have hnamenp := List.find?_some hfind
    have hprowname : prow.process_name = np := beq_iff_eq.mp hnamenp
    have hid := List.find?_some hemp
    have hidP : emp.id = eid := by simpa using hid
    have hmeme := List.mem_of_find?_eq_some hemp
    have hercount : ¬ (db.employees.filter fun e => e.id == eid).length = 0 :=
      filter_length_ne_zero_of_mem hmeme hid
    have hpred2 : (prow.process_name == np && decide (0 < prow.vacancy)) = true := by
      simp [hnamenp, hpos]
    have hgid : ∀ a : EmployeeRow,
        ((if a.id == eid then
            { a with
                name := nm, email := pyLower (pyStrip em), potential := pot,
                communication := comm, process_id := some prow.id,
                process_name := some np }
          else a).id == eid) = (a.id == eid) := by
      intro a
      split <;> rfl
    cases hop : emp.process_name with
    | none =>
      have hpmem : prow ∈ db.processes := List.mem_of_find?_eq_some hfind
      have hrc : ¬ ((db.processes.filter fun p =>
          p.process_name == np && decide (0 < p.vacancy)).length = 0) :=
        filter_length_ne_zero_of_mem hpmem hpred2
      have hres : update_employee db eid nm em pot comm (some np) =
          ({ db with
              processes := db.processes.map fun p =>
                if p.process_name == np && decide (0 < p.vacancy) then
                  { p with vacancy := p.vacancy - 1 }
                else p
              employees := db.employees.map fun e =>
                if e.id == eid then
                  { e with
                      name := nm, email := pyLower (pyStrip em), potential := pot,
                      communication := comm, process_id := some prow.id,
                      process_name := some np }
                else e },
            true, "Employee updated successfully") := by
        simp only [update_employee]
        rw [if_neg hdup]
        simp only [hemp]
        rw [if_pos hchanged]
        simp only [hop, hfind]
        rw [if_neg (show ¬ prow.vacancy ≤ 0 by omega), if_neg hrc, if_neg hercount]
      rw [hres]
      refine ⟨rfl, ?_, ?_, ?_⟩
      · unfold vacancyOf
        rw [find?_map_decr, hfind]
        simp [hprowname, hpos]
      · intro op oprow hop2 _
        cases hop2
      · rw [find?_map_congr _ _ hgid db.employees, hemp]
        simp [hidP]
    | some op =>
      have hne : op ≠ np := fun h => hchanged (by rw [hop, h])
      have hnameopP : ¬ prow.process_name = op := by
        rw [hprowname]
        exact Ne.symm hne
      have hfind1 : ((db.processes.map fun p =>
          if p.process_name == op then { p with vacancy := p.vacancy + 1 } else p).find?
            fun p => p.process_name == np) = some prow := by
        rw [find?_map_incr, hfind]
        simp [hnameopP]
      have hpmem : prow ∈ db.processes.map fun p =>
          if p.process_name == op then { p with vacancy := p.vacancy + 1 } else p :=
        List.mem_of_find?_eq_some hfind1
      have hrc : ¬ (((db.processes.map fun p =>
          if p.process_name == op then { p with vacancy := p.vacancy + 1 } else p).filter
            fun p => p.process_name == np && decide (0 < p.vacancy)).length = 0) :=
        filter_length_ne_zero_of_mem hpmem hpred2
      have hres : update_employee db eid nm em pot comm (some np) =
          ({ db with
              processes := (db.processes.map fun p =>
                  if p.process_name == op then { p with vacancy := p.vacancy + 1 }
                  else p).map fun p =>
                if p.process_name == np && decide (0 < p.vacancy) then
                  { p with vacancy := p.vacancy - 1 }
                else p
              employees := db.employees.map fun e =>
                if e.id == eid then
                  { e with
                      name := nm, email := pyLower (pyStrip em), potential := pot,
                      communication := comm, process_id := some prow.id,
                      process_name := some np }
                else e },
            true, "Employee updated successfully") := by
        simp only [update_employee]
        rw [if_neg hdup]
        simp only [hemp]
        rw [if_pos hchanged]
        simp only [hop, hfind1]
        rw [if_neg (show ¬ prow.vacancy ≤ 0 by omega), if_neg hrc, if_neg hercount]
      rw [hres]
      refine ⟨rfl, ?_, ?_, ?_⟩
      · unfold vacancyOf
        rw [find?_map_decr, hfind1]
        simp [hprowname, hpos]
      · intro op' oprow hop2 hfindop
        have hop' : op = op' := by injection hop2
        subst hop'
        have hnameo := List.find?_some hfindop
        have honame : oprow.process_name = op := beq_iff_eq.mp hnameo
        have hop_npP : ¬ oprow.process_name = np := by
          rw [honame]
          exact hne
        unfold vacancyOf
        rw [find?_map_decr, find?_map_incr, hfindop]
        simp [honame, hop_npP, hne]
      · rw [find?_map_congr _ _ hgid db.employees, hemp]
        simp [hidP]

/-- Witness for C6: reassigning to the missing process Gamma fails and leaves
the database unchanged; reassigning to Beta succeeds, takes Beta's last slot
(1 → 0), gives Alpha its slot back (2 → 3) and rewrites the employee row. -/
theorem C6_witness :
    ((update_employee dbC6 1 "John Doe" "john@example.com" "Sales" "Good"
        (some "Gamma")).1 = dbC6 ∧
      (update_employee dbC6 1 "John Doe" "john@example.com" "Sales" "Good"
        (some "Gamma")).2.1 = false) ∧
    (update_employee dbC6 1 "John Doe" "john@example.com" "Sales" "Good"
      (some "Beta")).2.1 = true ∧
    vacancyOf (update_employee dbC6 1 "John Doe" "john@example.com" "Sales" "Good"
      (some "Beta")).1.processes "Beta" = some 0 ∧
    vacancyOf (update_employee dbC6 1 "John Doe" "john@example.com" "Sales" "Good"
      (some "Beta")).1.processes "Alpha" = some 3 ∧
    (update_employee dbC6 1 "John Doe" "john@example.com" "Sales" "Good"
        (some "Beta")).1.employees.find? (fun e => e.id == 1) =
      some ⟨1, "John Doe", "john@example.com", "Sales", "Good", some 2, some "Beta"⟩ := by
  have hfail := (C6_update_employee_transactional dbC6 1 "John Doe" "john@example.com"
    "Sales" "Good" "Gamma" empC6 (by decide) (by decide)).1 (Or.inl (by decide))
  have hsucc := (C6_update_employee_transactional dbC6 1 "John Doe" "john@example.com"
    "Sales" "Good" "Beta" empC6 (by decide) (by decide)).2 ⟨2, "Beta", "Sales", "Good", 1⟩
    (by decide) (by decide) (by decide)
  exact ⟨hfail, hsucc.1, hsucc.2.1,
    hsucc.2.2.1 "Alpha" ⟨1, "Alpha", "Service", "Good", 2⟩ (by decide) (by decide),
    hsucc.2.2.2⟩

theorem filter_ne_filter_eq_nil (l : List EmployeeRow) (eid : Nat) :
    ((l.filter fun e => e.id != eid).filter fun e => e.id == eid) = [] := by
  rw [List.filter_eq_nil_iff]
  intro a ha
  have h2 := (List.mem_filter.mp ha).2
  simp at h2 ⊢
  exact h2

/-- Claim C9: deleting an employee assignment gives the assigned process its
slot back unconditionally (vacancy + 1), and an allocate-then-delete round
trip restores the process's vacancy: allocating into a process with vacancy
N drops it to N − 1 and deleting that assignment brings it back to N. -/
theorem C9_delete_releases_vacancy :
    (∀ (db : DB) (eid : Nat) (emp : EmployeeRow) (pn : String),
      db.employees.find? (fun e => e.id == eid) = some emp →
      emp.process_name = some pn →
      (delete_employee db eid).2.1 = true ∧
      ∀ prow, db.processes.find? (fun p => p.process_name == pn) = some prow →
        vacancyOf (delete_employee db eid).1.processes pn = some (prow.vacancy + 1)) ∧
    (∀ (db : DB) (nm em pot comm pn : String) (prow : PRow),
      (db.employees.any fun e => pyLower e.email == pyLower (pyStrip em)) = false →
      (db.employees.any fun e => e.id == db.next_eid) = false →
      db.processes.find? (fun p => p.process_name == pn) = some prow →
      0 < prow.vacancy →
      (add_employee db nm em pot comm (some pn)).2.1 = true ∧
      vacancyOf (add_employee db nm em pot comm (some pn)).1.processes pn =
        some (prow.vacancy - 1) ∧
      (delete_employee (add_employee db nm em pot comm (some pn)).1 db.next_eid).2.1 =
        true ∧
      vacancyOf (delete_employee (add_employee db nm em pot comm (some pn)).1
        db.next_eid).1.processes pn = some prow.vacancy) := by
  constructor
  · intro db eid emp pn hemp hpn
    have hid := List.find?_some hemp
    have hmeme := List.mem_of_find?_eq_some hemp
    have hcount : ¬ (db.employees.filter fun e => e.id == eid).length = 0 :=
      filter_length_ne_zero_of_mem hmeme hid
    have hchk : ¬ 0 < ((db.employees.filter fun e => e.id != eid).filter
        fun e => e.id == eid).length := by
      rw [filter_ne_filter_eq_nil]
      simp
    have hproj : (delete_employee db eid).1.processes =
        (db.processes.map fun p =>
          if p.process_name == pn then { p with vacancy := p.vacancy + 1 } else p) ∧
        (delete_employee db eid).2.1 = true := by
      simp only [delete_employee, hemp]
      rw [if_neg hcount, if_neg hchk]
      simp only [hpn]
      constructor <;> trivial
    refine ⟨hproj.2, ?_⟩
    intro prow hfind
    rw [vacancyOf, hproj.1, find?_map_incr, hfind]
    have hname := List.find?_some hfind
    simp [beq_iff_eq.mp hname]
  · intro db nm em pot comm pn prow hfresh hid hfind hvac
    have hfilterlen : ¬ 0 < (db.employees.filter fun e =>
        pyLower e.email == pyLower (pyStrip em)).length := by
      rw [filter_length_zero_of_any_false hfresh]
      simp
    have hnamep := List.find?_some hfind
    have hprowname : prow.process_name = pn := beq_iff_eq.mp hnamep
    have hpmem := List.mem_of_find?_eq_some hfind
    have hpred2 : (prow.process_name == pn && decide (0 < prow.vacancy)) = true := by
      simp [hnamep, hvac]
    have hrcadd : ¬ (db.processes.filter fun p =>
        p.process_name == pn && decide (0 < p.vacancy)).length = 0 :=
      filter_length_ne_zero_of_mem hpmem hpred2
    have hadd : add_employee db nm em pot comm (some pn) =
        ({ db with
            processes := db.processes.map fun p =>
              if p.process_name == pn && decide (0 < p.vacancy) then
                { p with vacancy := p.vacancy - 1 }
              else p
            employees := db.employees ++
              [(⟨db.next_eid, nm, pyLower (pyStrip em), pot, comm, some prow.id,
                some pn⟩ : EmployeeRow)]
            next_eid := db.next_eid + 1 },
          true, "Employee added successfully") := by
      simp only [add_employee]
      rw [if_neg hfilterlen]
      simp only [hfind]
      rw [if_neg (show ¬ prow.vacancy ≤ 0 by omega), if_neg hrcadd]
    refine ⟨by rw [hadd], ?_, ?_, ?_⟩
    · rw [hadd, vacancyOf]
      show ((db.processes.map fun p =>
          if p.process_name == pn && decide (0 < p.vacancy) then
            { p with vacancy := p.vacancy - 1 }
          else p).find? (fun p => p.process_name == pn)).map (·.vacancy) =
        some (prow.vacancy - 1)
      rw [find?_map_decr, hfind]
      simp [hprowname, hvac]
    all_goals
      rw [hadd]
      have hfindemp : ((db.employees ++
          [(⟨db.next_eid, nm, pyLower (pyStrip em), pot, comm, some prow.id,
            some pn⟩ : EmployeeRow)]).find? fun e => e.id == db.next_eid) =
          some (⟨db.next_eid, nm, pyLower (pyStrip em), pot, comm, some prow.id,
            some pn⟩ : EmployeeRow) := by
        rw [List.find?_append, find?_none_of_any_false hid]
        simp
      have hmemnew : (⟨db.next_eid, nm, pyLower (pyStrip em), pot, comm, some prow.id,
          some pn⟩ : EmployeeRow) ∈ db.employees ++
            [(⟨db.next_eid, nm, pyLower (pyStrip em), pot, comm, some prow.id,
              some pn⟩ : EmployeeRow)] :=
        List.mem_append_right _ (List.mem_singleton.mpr rfl)
      have hcount2 : ¬ ((db.employees ++
          [(⟨db.next_eid, nm, pyLower (pyStrip em), pot, comm, some prow.id,
            some pn⟩ : EmployeeRow)]).filter fun e => e.id == db.next_eid).length = 0 :=
        filter_length_ne_zero_of_mem hmemnew (by simp)
      have hchk2 : ¬ 0 < (((db.employees ++
          [(⟨db.next_eid, nm, pyLower (pyStrip em), pot, comm, some prow.id,
            some pn⟩ : EmployeeRow)]).filter fun e => e.id != db.next_eid).filter
              fun e => e.id == db.next_eid).length := by
        rw [filter_ne_filter_eq_nil]
        simp
      have hes1 : ((db.employees ++
          [(⟨db.next_eid, nm, pyLower (pyStrip em), pot, comm, some prow.id,
            some pn⟩ : EmployeeRow)]).filter fun e => e.id != db.next_eid) =
          db.employees := by
        rw [List.filter_append]
        have h1 : db.employees.filter (fun e => e.id != db.next_eid) = db.employees := by
          rw [List.filter_eq_self]
          intro a ha
          have hfa : (a.id == db.next_eid) = false := by
            by_contra hc
            have hc' : (a.id == db.next_eid) = true := by
              revert hc
              cases a.id == db.next_eid <;> simp
            have hany : (db.employees.any fun e => e.id == db.next_eid) = true :=
              List.any_eq_true.mpr ⟨a, ha, hc'⟩
            rw [hid] at hany
            cases hany
          simp [bne, hfa]
        have h2 : ([(⟨db.next_eid, nm, pyLower (pyStrip em), pot, comm, some prow.id,
            some pn⟩ : EmployeeRow)] : List EmployeeRow).filter
              (fun e => e.id != db.next_eid) = [] := by
          simp [bne]
        rw [h1, h2, List.append_nil]
      have hsweep : ¬ 0 < (db.employees.filter fun e =>
          pyLower e.email == pyLower (pyLower (pyStrip em))).length := by
        have heq : (fun (e : EmployeeRow) =>
            pyLower e.email == pyLower (pyLower (pyStrip em))) =
            fun e => pyLower e.email == pyLower (pyStrip em) := by
          funext e
          rw [pyLower_idem]
        rw [heq, filter_length_zero_of_any_false hfresh]
        simp
      have hproj : (delete_employee
          ({ db with
              processes := db.processes.map fun p =>
                if p.process_name == pn && decide (0 < p.vacancy) then
                  { p with vacancy := p.vacancy - 1 }
                else p
              employees := db.employees ++
                [(⟨db.next_eid, nm, pyLower (pyStrip em), pot, comm, some prow.id,
                  some pn⟩ : EmployeeRow)]
              next_eid := db.next_eid + 1 }) db.next_eid).1.processes =
          ((db.processes.map fun p =>
            if p.process_name == pn && decide (0 < p.vacancy) then
              { p with vacancy := p.vacancy - 1 }
            else p).map fun p =>
              if p.process_name == pn then { p with vacancy := p.vacancy + 1 } else p) ∧
          (delete_employee
            ({ db with
                processes := db.processes.map fun p =>
                  if p.process_name == pn && decide (0 < p.vacancy) then
                    { p with vacancy := p.vacancy - 1 }
                  else p
                employees := db.employees ++
                  [(⟨db.next_eid, nm, pyLower (pyStrip em), pot, comm, some prow.id,
                    some pn⟩ : EmployeeRow)]
                next_eid := db.next_eid + 1 }) db.next_eid).2.1 = true := by
        simp only [delete_employee, hfindemp]
        rw [if_neg hcount2, if_neg hchk2]
        rw [hes1]
        rw [if_neg hsweep]
        constructor <;> trivial
      first
      | exact hproj.2
      | (rw [vacancyOf, hproj.1, find?_map_incr, find?_map_decr, hfind]
         have hd : prow.vacancy - 1 + 1 = prow.vacancy := by omega
         simp [hprowname, hvac, hd])

/-- Witness for C9: deleting the stored assignment raises Alpha's vacancy
from 5 to 6, and an allocate-then-delete round trip takes it 5 → 4 → 5. -/
theorem C9_witness :
    (delete_employee dbC9 1).2.1 = true ∧
    vacancyOf (delete_employee dbC9 1).1.processes "Alpha" = some 6 ∧
    (add_employee dbC9 "John Doe" "new@example.com" "Service" "Good" (some "Alpha")).2.1 =
      true ∧
    vacancyOf (add_employee dbC9 "John Doe" "new@example.com" "Service" "Good"
      (some "Alpha")).1.processes "Alpha" = some 4 ∧
    (delete_employee (add_employee dbC9 "John Doe" "new@example.com" "Service" "Good"
      (some "Alpha")).1 dbC9.next_eid).2.1 = true ∧
    vacancyOf (delete_employee (add_employee dbC9 "John Doe" "new@example.com" "Service"
      "Good" (some "Alpha")).1 dbC9.next_eid).1.processes "Alpha" = some 5 := by
  have h1 := C9_delete_releases_vacancy.1 dbC9 1
    ⟨1, "Jane Roe", "jane@example.com", "Service", "Good", some 1, some "Alpha"⟩ "Alpha"
    (by decide) (by decide)
  have h2 := C9_delete_releases_vacancy.2 dbC9 "John Doe" "new@example.com" "Service"
    "Good" "Alpha" ⟨1, "Alpha", "Service", "Good", 5⟩ (by decide) (by decide) (by decide)
    (by decide)
  exact ⟨h1.1, h1.2 ⟨1, "Alpha", "Service", "Good", 5⟩ (by decide), h2.1, h2.2.1,
    h2.2.2.1, h2.2.2.2⟩
